import Mathlib

/-!
# Verification of the `linkcheck` crawl engine (spotlightpa/linkrot)

A shallow embedding of the core of the `linkcheck` package:
URL helpers (`helpers.go`), the work queue and validator data structures
(`datastructures.go`), the HTML extractor (`parsehtml.go`) and the fetcher and
crawl coordinator (`linkcheck.go`), together with theorems settling the frozen
claims about the natural-language specification.

Modelling conventions:
* Go strings are Lean `String`s; string scanning is done through `String.toList`
  with plain structural list recursion so that every definition evaluates by
  kernel reduction.
* Go's `map[string]bool` sets are modelled as `List String` with `contains`
  membership, inserting only unseen elements; `map[string]V` maps are
  association lists updated in place.  Go map iteration order is unspecified;
  the embedding iterates in list order, and every claim proved about map
  contents is insensitive to that order.
* `net/url` URLs are modelled by the `GoURL` structure covering the
  hierarchical scheme://host/path?query#fragment shape that the crawler
  manipulates; userinfo, opaque URLs and percent-escaping are outside the
  model.  `url.Parse` only fails on ASCII control characters, which the model
  mirrors in `resolveRef` where the source visibly branches on a parse error.
-/

namespace Linkcheck

/-! ## String scanning helpers (model of the `strings` standard library calls) -/

/-- Model of `strings.HasPrefix(s, pre)`. -/
def strStartsWith (s pre : String) : Bool :=
  pre.toList.isPrefixOf s.toList

/-- Split a character list at the first occurrence of `c`:
returns the part before and the part after (dropping `c` itself).
If `c` does not occur, the second component is empty. -/
def cutListChar : List Char → Char → List Char × List Char
  | [], _ => ([], [])
  | x :: xs, c =>
    if x = c then ([], xs)
    else
      let r := cutListChar xs c
      (x :: r.1, r.2)

/-- Split a string at the first occurrence of character `c`. -/
def cutChar (s : String) (c : Char) : String × String :=
  let r := cutListChar s.toList c
  (r.1.asString, r.2.asString)

/-- Split a character list at the first occurrence of the pattern `pat`
(`none` when the pattern does not occur). -/
def cutListSeq : List Char → List Char → Option (List Char × List Char)
  | [], _ => none
  | x :: xs, pat =>
    if pat.isPrefixOf (x :: xs) then some ([], (x :: xs).drop pat.length)
    else
      match cutListSeq xs pat with
      | some (a, b) => some (x :: a, b)
      | none => none

/-- Split a string at the first occurrence of the substring `pat`. -/
def cutStr (s pat : String) : Option (String × String) :=
  match cutListSeq s.toList pat.toList with
  | some (a, b) => some (a.asString, b.asString)
  | none => none

/-- Go's `url.Parse` rejects exactly strings containing an ASCII control
character (`b < 0x20` or `b = 0x7f`). -/
def containsCtl (s : String) : Bool :=
  s.toList.any (fun c => c.toNat < 0x20 || c.toNat == 0x7f)

/-! ## `net/url` model -/

/-- Model of `*url.URL` restricted to the hierarchical components the crawler
uses: scheme, host (authority), path, raw query and fragment. -/
structure GoURL where
  scheme : String
  host : String
  path : String
  query : String
  frag : String
  deriving DecidableEq, Repr

/-- Model of `url.Parse`: split off the fragment at the first `#`, the query at
the first `?`; a leading `scheme://` marks an absolute URL whose host extends to
the first `/`.  (Total: the control-character failure of Go's parser is handled
at the call sites that inspect the error, see `resolveRef`.) -/
def parseGoURL (s : String) : GoURL :=
  let p1 := cutChar s '#'
  let frag := p1.2
  let p2 := cutChar p1.1 '?'
  let query := p2.2
  match cutStr p2.1 "://" with
  | none => { scheme := "", host := "", path := p2.1, query := query, frag := frag }
  | some (sch, rest) =>
    let hp := cutListChar rest.toList '/'
    -- host is up to the first '/'; the path keeps its leading '/'
    { scheme := sch, host := hp.1.asString,
      path := (rest.toList.drop hp.1.length).asString,
      query := query, frag := frag }

/-- Model of `(*url.URL).String()` for the hierarchical subset. -/
def GoURL.render (u : GoURL) : String :=
  (if u.scheme = "" && u.host = "" then "" else u.scheme ++ "://" ++ u.host)
  ++ u.path
  ++ (if u.query = "" then "" else "?" ++ u.query)
  ++ (if u.frag = "" then "" else "#" ++ u.frag)

/-- `base[:strings.LastIndex(base, "/")+1]`: everything up to and including the
last slash (empty when there is no slash). -/
def upToLastSlash (s : String) : String :=
  ((s.toList.reverse.dropWhile (fun c => c ≠ '/')).reverse).asString

/-- Model of `net/url`'s path merge in `resolvePath`: empty references keep the
base path, absolute references replace it, relative references are appended to
the base's directory.  (The subsequent dot-segment removal of `resolvePath` is
omitted: no claim exercises `.` or `..` segments.) -/
def resolvePath (base ref : String) : String :=
  if ref = "" then base
  else if strStartsWith ref "/" then ref
  else upToLastSlash base ++ ref

/-- Model of `(*url.URL).ResolveReference` (RFC 3986 §5.3) for the hierarchical
subset, following the branch structure of `net/url` (the userinfo and opaque
branches are outside the model). -/
def GoURL.resolveReference (u ref : GoURL) : GoURL :=
  let url := if ref.scheme = "" then { ref with scheme := u.scheme } else ref
  if ref.scheme ≠ "" ∨ ref.host ≠ "" then
    -- absolute or host-relative reference: taken as-is
    { url with path := resolvePath ref.path "" }
  else
    let url :=
      if ref.path = "" ∧ ref.query = "" then
        { url with query := u.query,
                   frag := if ref.frag = "" then u.frag else ref.frag }
      else url
    { url with host := u.host, path := resolvePath u.path ref.path }

/-! ## `helpers.go` -/

/-- `removeFragment` (helpers.go): parse, clear the fragment, re-serialize. -/
def removeFragment (link : String) : String :=
  let u := parseGoURL link
  ({ u with frag := "" }).render

/-- `splitFragment` (helpers.go): parse, remember the fragment, clear it,
re-serialize; returns `(link, frag)`. -/
def splitFragment (linkIn : String) : String × String :=
  let u := parseGoURL linkIn
  (({ u with frag := "" }).render, u.frag)

/-- `sliceToSet` (helpers.go): build a set (`map[string]bool`) from a slice;
modelled as a duplicate-free list. -/
def insertSet (set : List String) (s : String) : List String :=
  if set.contains s then set else set ++ [s]

def sliceToSet (ss : List String) : List String :=
  ss.foldl insertSet []

/-! ## Work queue (`datastructures.go`) -/

/-- The crawl work queue: a FIFO `q` plus a membership set `m`
(`map[string]bool`, modelled as a list). -/
structure Queue where
  q : List String
  m : List String
  deriving DecidableEq, Repr

/-- `newQueue` seeds both the FIFO and the membership set with the root URL
verbatim (no fragment stripping here). -/
def newQueue (url : String) : Queue :=
  { q := [url], m := [url] }

def Queue.empty (qu : Queue) : Bool :=
  qu.q.isEmpty

/-- `head` returns the first element, or `""` on an empty queue. -/
def Queue.head (qu : Queue) : String :=
  match qu.q with
  | [] => ""
  | x :: _ => x

/-- `pophead` drops the first element and is a no-op on an empty queue. -/
def Queue.pophead (qu : Queue) : Queue :=
  match qu.q with
  | [] => qu
  | _ :: rest => { qu with q := rest }

/-- `add` strips the fragment, then appends to the FIFO and records membership
only when the stripped URL has not been queued before. -/
def Queue.add (qu : Queue) (link : String) : Queue :=
  let link := removeFragment link
  if qu.m.contains link then qu
  else { q := qu.q ++ [link], m := link :: qu.m }

/-! ## Page store and error report (`datastructures.go`) -/

/-- The error kinds of §7: the sentinel fetch errors produced by `doFetch`
(404 `NotFound`, 410 `Gone`, DNS failures) and the validator's
`ErrMissingFragment` sentinel. -/
inductive ErrKind where
  | notFound
  | gone
  | dns
  | missingFragment
  deriving DecidableEq, Repr

/-- `pageInfo`: ids and links of a crawled page (sets, modelled as
duplicate-free lists) or the fetch error. -/
structure PageInfo where
  ids : List String
  links : List String
  err : Option ErrKind
  deriving DecidableEq, Repr

/-- `fetchResult`: what a worker sends back to the coordinator. -/
structure FetchResult where
  url : String
  links : List String
  ids : List String
  err : Option ErrKind
  deriving DecidableEq, Repr

/-- `crawledPages`: map from URL to page record, modelled as an association
list (iteration in list order). -/
abbrev CrawledPages := List (String × PageInfo)

/-- `pageError`: error kind, back-references, and (for fragment errors) the set
of missing fragments. -/
structure PageError where
  err : ErrKind
  refs : List String
  missingFragments : List String
  deriving DecidableEq, Repr

/-- `urlErrors`: map from URL to page error, modelled as an association list. -/
abbrev UrlErrors := List (String × PageError)

/-- Association-list lookup (Go map indexing `m[k]`, `ok` form). -/
def lookupUE : UrlErrors → String → Option PageError
  | [], _ => none
  | (k, v) :: rest, u => if k = u then some v else lookupUE rest u

/-- Association-list update (Go map assignment `m[k] = v`): replaces the
binding in place, or appends a fresh one. -/
def updateUE : UrlErrors → String → PageError → UrlErrors
  | [], k, v => [(k, v)]
  | (k', v') :: rest, k, v =>
    if k' = k then (k, v) :: rest else (k', v') :: updateUE rest k v

/-- Association-list lookup for the page store (`cp[link]`, `ok` form). -/
def lookupCP : CrawledPages → String → Option PageInfo
  | [], _ => none
  | (k, v) :: rest, u => if k = u then some v else lookupCP rest u

/-- Association-list update for the page store (`cp[url] = pi`). -/
def updateCP : CrawledPages → String → PageInfo → CrawledPages
  | [], k, v => [(k, v)]
  | (k', v') :: rest, k, v =>
    if k' = k then (k, v) :: rest else (k', v') :: updateCP rest k v

def newCrawledPages : CrawledPages := []

/-- `crawledPages.add`: store an error-only record for a failed fetch, else the
ids and links as sets. -/
def CrawledPages.add (cp : CrawledPages) (fr : FetchResult) : CrawledPages :=
  match fr.err with
  | some _ => updateCP cp fr.url { ids := [], links := [], err := fr.err }
  | none =>
    updateCP cp fr.url
      { ids := sliceToSet fr.ids, links := sliceToSet fr.links, err := none }

/-- `crawledPages.addLinksToQueue`: offer every link of the stored page to the
queue (a missing entry is Go's zero value with no links). -/
def CrawledPages.addLinksToQueue (cp : CrawledPages) (url : String) (qu : Queue) : Queue :=
  match lookupCP cp url with
  | some pi => pi.links.foldl Queue.add qu
  | none => qu

/-- The `ok && target.ids[frag]` test of the validator: does the target page of
`l` exist in the store and carry `frag` among its ids? -/
def idCheckPasses (cp : CrawledPages) (l frag : String) : Bool :=
  match lookupCP cp l with
  | some target => target.ids.contains frag
  | none => false

/-- Phase A of `crawledPages.toURLErrors`: one entry per stored fetch error,
with empty refs and no missing fragments. -/
def phaseA (cp : CrawledPages) : UrlErrors :=
  cp.foldl
    (fun acc p =>
      match p.2.err with
      | some e => updateUE acc p.1 { err := e, refs := [], missingFragments := [] }
      | none => acc)
    []

/-- The inner loop body of phase B of `toURLErrors` for one link of `page`:
split the fragment off; back-reference `page` on a phase-A entry for the base;
skip empty and `#!` fragments; skip fragments found among the target's ids;
otherwise record (or extend) the `MissingFragment` entry on the base.  The
state is the pair (requestErrs, fragErrs). -/
def processLink (cp : CrawledPages) (page : String) (st : UrlErrors × UrlErrors)
    (link : String) : UrlErrors × UrlErrors :=
  let l := (splitFragment link).1
  let frag := (splitFragment link).2
  let reqE :=
    match lookupUE st.1 l with
    | some pe => updateUE st.1 l { pe with refs := pe.refs ++ [page] }
    | none => st.1
  if frag = "" ∨ strStartsWith frag "!" then (reqE, st.2)
  else if idCheckPasses cp l frag then (reqE, st.2)
  else
    let pe :=
      match lookupUE st.2 l with
      | some pe => pe
      | none => { err := ErrKind.missingFragment, refs := [], missingFragments := [] }
    (reqE,
      updateUE st.2 l
        { pe with refs := pe.refs ++ [page],
                  missingFragments := insertSet pe.missingFragments frag })

/-- Phase B of `toURLErrors`: walk every stored page under the root prefix and
process each of its links, threading (requestErrs, fragErrs). -/
def phaseB (cp : CrawledPages) (base : String) (reqE : UrlErrors) : UrlErrors × UrlErrors :=
  cp.foldl
    (fun st p =>
      if strStartsWith p.1 base then p.2.links.foldl (processLink cp p.1) st
      else st)
    (reqE, [])

/-- `crawledPages.toURLErrors`: phase A, phase B, then the merge writing every
fragment error into the report (overwriting a same-key phase-A entry). -/
def CrawledPages.toURLErrors (cp : CrawledPages) (base : String) : UrlErrors :=
  let st := phaseB cp base (phaseA cp)
  st.2.foldl (fun acc p => updateUE acc p.1 p.2) st.1

/-! ## HTML extractor (`parsehtml.go`) -/

/-- `html.NodeType` (the subset the extractor distinguishes). -/
inductive NType where
  | element
  | text
  | document
  | comment
  | doctype
  deriving DecidableEq, Repr

/-- `html.Attribute` (namespace omitted). -/
structure HAttr where
  key : String
  val : String
  deriving DecidableEq, Repr

/-- `*html.Node`: node type, tag atom (as a string, `"a"` for `atom.A`),
attributes and children. -/
inductive Node where
  | mk (ntype : NType) (dataAtom : String) (attr : List HAttr) (children : List Node)

def Node.ntype : Node → NType
  | .mk t _ _ _ => t

def Node.dataAtom : Node → String
  | .mk _ a _ _ => a

def Node.attr : Node → List HAttr
  | .mk _ _ as _ => as

def Node.children : Node → List Node
  | .mk _ _ _ cs => cs

mutual
/-- The depth-first visit order of `visitAll`: the node itself, then each
child's subtree in order.  A callback folded over this list is exactly a
`visitAll` traversal. -/
def preorder : Node → List Node
  | .mk t a as cs => .mk t a as cs :: preorderList cs

def preorderList : List Node → List Node
  | [] => []
  | n :: ns => preorder n ++ preorderList ns
end

/-- `isAnchor`: an element node with atom `a`. -/
def isAnchor (n : Node) : Bool :=
  n.ntype == NType.element && n.dataAtom == "a"

/-- `getIDs`: every `id` attribute value, plus `name` attribute values on
anchors (legacy named anchors). -/
def getIDs (n : Node) : List String :=
  ((n.attr.filter (fun a => a.key == "id")).map HAttr.val)
  ++ (if isAnchor n then (n.attr.filter (fun a => a.key == "name")).map HAttr.val
      else [])

/-- `href`: the value of the first `href` attribute, or `""`. -/
def href (n : Node) : String :=
  match n.attr.find? (fun a => a.key == "href") with
  | some a => a.val
  | none => ""

/-- `resolveRef`: parse the reference (Go's parser fails exactly on control
characters, yielding `""`), then resolve against the base URL and serialize. -/
def resolveRef (baseurl : GoURL) (ref : String) : String :=
  if containsCtl ref then ""
  else (baseurl.resolveReference (parseGoURL ref)).render

/-- `linkFromAHref`: `""` for non-anchors, else the resolved `href`. -/
def linkFromAHref (pageurl : GoURL) (n : Node) : String :=
  if !isAnchor n then ""
  else resolveRef pageurl (href n)

/-- `getIDsAndLinks`: one `visitAll` pass collecting ids everywhere and, when
`getLinks` is set, every nonempty resolved anchor target. -/
def getIDsAndLinks (pageurl : GoURL) (doc : Node) (getLinks : Bool) :
    List String × List String :=
  let nodes := preorder doc
  let ids := nodes.foldl (fun acc n => acc ++ getIDs n) []
  let links :=
    if getLinks then
      nodes.foldl
        (fun acc n =>
          let link := linkFromAHref pageurl n
          if link ≠ "" then acc ++ [link] else acc)
        []
    else []
  (ids, links)

/-! ## Fetcher (`linkcheck.go`) -/

/-- The crawler configuration the core operations read: the root URL string and
the configured exclusion prefixes. -/
structure Crawler where
  base : String
  excludePaths : List String
  deriving Repr

/-- The observable outcome of one HTTP round trip (redirects already followed),
abstracting the `requests` pipeline of `doFetch`:
* `success finalURL doc`: status 200, content type accepted, body parsed as
  HTML into `doc`; `finalURL` is the response's request URL after redirects.
* `statusErr code`: the `CheckStatus(http.StatusOK)` validator failed with the
  given non-200 status code.
* `dnsErr`: the transport failed with a `*net.DNSError`.
* `otherErr`: any other failure (network, TLS, timeout, content-type gate,
  HTML parse). -/
inductive FetchOutcome where
  | success (finalURL : String) (doc : Node)
  | statusErr (code : Nat)
  | dnsErr
  | otherErr

/-- The network: what requesting each URL observes. -/
def World := String → FetchOutcome

/-- `crawler.shouldGetLinks`: is the (final) URL under the root prefix? -/
def Crawler.shouldGetLinks (c : Crawler) (url : String) : Bool :=
  strStartsWith url c.base

/-- `crawler.isExcluded`: non-http(s) links and configured prefixes are
excluded. -/
def Crawler.isExcluded (c : Crawler) (link : String) : Bool :=
  if !strStartsWith link "http://" && !strStartsWith link "https://" then true
  else c.excludePaths.any (fun p => strStartsWith link p)

/-- `crawler.doFetch`: classify the outcome of the request pipeline.  Report
404/410 status errors and DNS errors; swallow every other failure (empty
result, no error).  On success, `pageurl` is rebound to the final post-redirect
URL (the `AddValidator` callback), links are extracted only when the final URL
is under the root prefix, and each extracted link passes the exclusion
filter. -/
def Crawler.doFetch (c : Crawler) (w : World) (pageurl : String) :
    List String × List String × Option ErrKind :=
  match w pageurl with
  | .statusErr code =>
    if code = 404 then ([], [], some ErrKind.notFound)
    else if code = 410 then ([], [], some ErrKind.gone)
    else ([], [], none)
  | .dnsErr => ([], [], some ErrKind.dns)
  | .otherErr => ([], [], none)
  | .success finalURL doc =>
    let pageurl := finalURL
    let shouldGet := c.shouldGetLinks pageurl
    let u := parseGoURL pageurl
    let idsAll := getIDsAndLinks u doc shouldGet
    let links :=
      if shouldGet then idsAll.2.filter (fun link => !c.isExcluded link)
      else []
    (links, idsAll.1, none)

/-- `crawler.fetch`: wrap `doFetch`'s output in a `fetchResult` carrying the
URL that was passed in. -/
def Crawler.fetch (c : Crawler) (w : World) (url : String) : FetchResult :=
  let r := c.doFetch w url
  { url := url, links := r.1, ids := r.2.1, err := r.2.2 }

/-! ## Crawl coordinator (`crawler.crawl`) -/

/-- The coordinator's loop state: work queue, in-flight counter, page store and
cancellation flag. -/
structure CrawlState where
  q : Queue
  openFetchs : Nat
  crawled : CrawledPages
  cancelled : Bool
  deriving DecidableEq, Repr

/-- The three select cases of the event loop.  `dispatch` is a worker taking
the head URL, `result` a worker returning a fetch result, `interrupt` the
cancellation signal. -/
inductive CrawlEvent where
  | dispatch
  | result (r : FetchResult)
  | interrupt

/-- One iteration body of the coordinator's select.  Sending on a nil channel
blocks forever, so the dispatch case cannot fire on an empty queue (modelled as
a no-op); a result is stored and, when its URL is under the root prefix, its
links are offered to the queue; the interrupt sets the cancelled flag. -/
def step (c : Crawler) (s : CrawlState) : CrawlEvent → CrawlState
  | .dispatch =>
    if s.q.empty then s
    else { s with openFetchs := s.openFetchs + 1, q := s.q.pophead }
  | .result r =>
    let crawled := s.crawled.add r
    let q :=
      if strStartsWith r.url c.base then crawled.addLinksToQueue r.url s.q
      else s.q
    { s with openFetchs := s.openFetchs - 1, crawled := crawled, q := q }
  | .interrupt => { s with cancelled := true }

/-- The loop predicate: `(openFetchs > 0 || !q.empty()) && !cancelled`. -/
def loopGuard (s : CrawlState) : Bool :=
  (decide (0 < s.openFetchs) || !s.q.empty) && !s.cancelled

/-- The coordinator's event loop, driven by a finite schedule of select
outcomes.  `some s'` means the guard became false and the loop exited (after
which `close(workerqueue)` runs); `none` means the schedule ran out while the
loop was still iterating. -/
def runCrawl (c : Crawler) : List CrawlEvent → CrawlState → Option CrawlState
  | [], s => if loopGuard s then none else some s
  | e :: es, s => if loopGuard s then runCrawl c es (step c s e) else some s

/-- The initial loop state: the queue seeded with the root, no fetch in
flight, an empty store, not cancelled. -/
def initState (c : Crawler) : CrawlState :=
  { q := newQueue c.base, openFetchs := 0, crawled := newCrawledPages,
    cancelled := false }

/-! ## Queue operation traces

The coordinator only touches the queue through `add` and `pophead`; a trace of
those operations lets us speak about every string ever appended to the FIFO
over the lifetime of a crawl. -/

inductive QueueOp where
  | add (link : String)
  | pop

def Queue.applyOp (qu : Queue) : QueueOp → Queue
  | .add l => qu.add l
  | .pop => qu.pophead

/-- The strings one operation appends to the FIFO: `add` appends the stripped
link exactly when it is not yet in the membership set; `pophead` appends
nothing. -/
def appendedBy (qu : Queue) : QueueOp → List String
  | .add l =>
    if qu.m.contains (removeFragment l) then [] else [removeFragment l]
  | .pop => []

/-- All strings appended to the FIFO over a trace of operations, in order. -/
def appendedLog (qu : Queue) : List QueueOp → List String
  | [] => []
  | op :: ops => appendedBy qu op ++ appendedLog (qu.applyOp op) ops

/-! ## Validator invariants (named predicates used by the theorems) -/

/-- A well-formed `MissingFragment` entry for URL `u`: kind `missingFragment`,
a non-empty set of missing fragments, each of which fails the identifier check
against the page store. -/
def fragOK (cp : CrawledPages) (u : String) (pe : PageError) : Prop :=
  pe.err = ErrKind.missingFragment ∧ pe.missingFragments ≠ [] ∧
    ∀ f ∈ pe.missingFragments, idCheckPasses cp u f = false

/-- Keys of an association list are pairwise distinct (Go map semantics). -/
def UENodupKeys (ue : UrlErrors) : Prop :=
  ue.Pairwise (fun a b => a.1 ≠ b.1)

/-- Every back-reference recorded anywhere in the map lies under the root
prefix. -/
def refsOK (base : String) (ue : UrlErrors) : Prop :=
  ∀ p ∈ ue, ∀ r ∈ p.2.refs, strStartsWith r base = true

/-- No entry of the map carries the `missingFragment` kind (true of the
request-error map: fetch errors are 404/410/DNS). -/
def noMF (ue : UrlErrors) : Prop :=
  ∀ p ∈ ue, p.2.err ≠ ErrKind.missingFragment

/-- Every entry of the map is a well-formed missing-fragment entry. -/
def allFragOK (cp : CrawledPages) (ue : UrlErrors) : Prop :=
  ∀ p ∈ ue, fragOK cp p.1 p.2

/-! ## Concrete instances used by witnesses and counterexamples -/

/-- A leaf document node with no content. -/
def docEmpty : Node := Node.mk NType.text "" [] []

/-- An anchor element carrying no attributes at all (so no `href`). -/
def anchorNoHref : Node := Node.mk NType.element "a" [] []

/-- A crawler rooted at `http://site/` with no exclusions. -/
def crawlerSite : Crawler := { base := "http://site/", excludePaths := [] }

/-- A network where requesting `http://site/r` is redirected and lands on the
final URL `http://site/final/` with an empty page. -/
def worldRedirect : World := fun s =>
  if s = "http://site/r" then FetchOutcome.success "http://site/final/" docEmpty
  else FetchOutcome.otherErr

/-- A network where requesting `http://site/r` is redirected off-site, landing
on `http://other/x`. -/
def worldElsewhere : World := fun s =>
  if s = "http://site/r" then FetchOutcome.success "http://other/x" docEmpty
  else FetchOutcome.otherErr

/-- A network where every request answers HTTP 404. -/
def worldAll404 : World := fun _ => FetchOutcome.statusErr 404

/-- A crawler rooted at `http://a/`. -/
def crawlerA : Crawler := { base := "http://a/", excludePaths := [] }

/-- The fetch result of the root page of `crawlerA`: no links, no ids. -/
def resultRootA : FetchResult :=
  { url := "http://a/", links := [], ids := [], err := none }

/-- The loop state after dispatching the root of `crawlerA` and receiving its
(empty) result: queue drained, nothing in flight. -/
def finalStateA : CrawlState :=
  { q := { q := [], m := ["http://a/"] }, openFetchs := 0,
    crawled := [("http://a/", { ids := [], links := [], err := none })],
    cancelled := false }

/-- A page store where the in-site page `http://x/` links to
`http://x/bad#f`; `http://x/bad` failed its fetch with a 404 and (being an
error entry) stores no ids, so fragment `f` is missing. -/
def cpBoth : CrawledPages :=
  [("http://x/", { ids := [], links := ["http://x/bad#f"], err := none }),
   ("http://x/bad", { ids := [], links := [], err := some ErrKind.notFound })]

end Linkcheck

namespace Linkcheck

/-! ## Infrastructure lemmas -/

theorem foldl_preserve {α β : Type} {P : α → Prop} {Q : β → Prop} {f : α → β → α}
    (hstep : ∀ a b, Q b → P a → P (f a b)) :
    ∀ (l : List β) (a : α), (∀ b ∈ l, Q b) → P a → P (l.foldl f a) := by
  intro l
  induction l with
  | nil => intro a _ ha; exact ha
  | cons x xs ih =>
    intro a hQ ha
    exact ih (f a x) (fun b hb => hQ b (List.mem_cons_of_mem _ hb))
      (hstep a x (hQ x (List.mem_cons_self _ _)) ha)

theorem lookupUE_update (ue : UrlErrors) (k : String) (v : PageError) (u : String) :
    lookupUE (updateUE ue k v) u = if k = u then some v else lookupUE ue u := by
  induction ue with
  | nil => simp [updateUE, lookupUE]
  | cons p rest ih =>
    obtain ⟨k', v'⟩ := p
    by_cases hk : k' = k
    · subst hk
      by_cases hu : k' = u <;> simp [updateUE, lookupUE, hu]
    · by_cases hu : k' = u
      · subst hu
        have hne : ¬ k = k' := fun h => hk h.symm
        simp [updateUE, lookupUE, hk, hne]
      · simp [updateUE, lookupUE, hk, hu, ih]

theorem mem_updateUE {ue : UrlErrors} {k : String} {v : PageError}
    {p : String × PageError} (h : p ∈ updateUE ue k v) : p = (k, v) ∨ p ∈ ue := by
  induction ue with
  | nil => simpa [updateUE] using h
  | cons q rest ih =>
    obtain ⟨k', v'⟩ := q
    by_cases hk : k' = k
    · subst hk
      rcases (by simpa [updateUE] using h : p = (k', v) ∨ p ∈ rest) with h1 | h1
      · exact Or.inl h1
      · exact Or.inr (List.mem_cons_of_mem _ h1)
    · rcases (by simpa [updateUE, hk] using h : p = (k', v') ∨ p ∈ updateUE rest k v) with h1 | h1
      · exact Or.inr (by simp [h1])
      · rcases ih h1 with h2 | h2
        · exact Or.inl h2
        · exact Or.inr (List.mem_cons_of_mem _ h2)

theorem mem_of_lookupUE {ue : UrlErrors} {u : String} {pe : PageError}
    (h : lookupUE ue u = some pe) : (u, pe) ∈ ue := by
  induction ue with
  | nil => simp [lookupUE] at h
  | cons p rest ih =>
    obtain ⟨k, v⟩ := p
    by_cases hk : k = u
    · subst hk
      simp [lookupUE] at h
      subst h
      exact List.mem_cons_self _ _
    · simp only [lookupUE, if_neg hk] at h
      exact List.mem_cons_of_mem _ (ih h)

theorem lookupUE_eq_none (ue : UrlErrors) (u : String)
    (h : ∀ p ∈ ue, p.1 ≠ u) : lookupUE ue u = none := by
  induction ue with
  | nil => rfl
  | cons p rest ih =>
    obtain ⟨k, v⟩ := p
    have hk : k ≠ u := h (k, v) (List.mem_cons_self _ _)
    simp only [lookupUE, if_neg hk]
    exact ih (fun q hq => h q (List.mem_cons_of_mem _ hq))

theorem nodupKeys_updateUE (k : String) (v : PageError) :
    ∀ ue : UrlErrors, UENodupKeys ue → UENodupKeys (updateUE ue k v) := by
  intro ue
  induction ue with
  | nil =>
    intro _
    simp [updateUE, UENodupKeys]
  | cons p rest ih =>
    intro h
    obtain ⟨k', v'⟩ := p
    rcases (List.pairwise_cons.mp h) with ⟨hk', hrest⟩
    by_cases hk : k' = k
    · subst hk
      simp only [updateUE, if_pos rfl]
      exact List.pairwise_cons.mpr ⟨hk', hrest⟩
    · simp only [updateUE, if_neg hk]
      refine List.pairwise_cons.mpr ⟨?_, ih hrest⟩
      intro q hq
      rcases mem_updateUE hq with h1 | h1
      · rw [h1]; exact hk
      · exact hk' q h1

/-- Folding Go's merge loop (`requestErrs[url] = pe` for every fragment entry)
does not disturb keys that are absent from the folded list. -/
theorem lookup_mergeFold_of_none (l : UrlErrors) (acc : UrlErrors) (u : String)
    (h : lookupUE l u = none) :
    lookupUE (l.foldl (fun a p => updateUE a p.1 p.2) acc) u = lookupUE acc u := by
  induction l generalizing acc with
  | nil => rfl
  | cons p rest ih =>
    obtain ⟨k, v⟩ := p
    by_cases hk : k = u
    · simp [lookupUE, hk] at h
    · simp only [lookupUE, if_neg hk] at h
      simp only [List.foldl_cons]
      rw [ih _ h, lookupUE_update, if_neg hk]

/-- A key present in the folded list ends up bound to that list's value,
overriding whatever the accumulator held. -/
theorem lookup_mergeFold_of_some :
    ∀ (l acc : UrlErrors) (u : String) (pe : PageError),
      UENodupKeys l → lookupUE l u = some pe →
      lookupUE (l.foldl (fun a p => updateUE a p.1 p.2) acc) u = some pe := by
  intro l
  induction l with
  | nil =>
    intro acc u pe _ h
    simp [lookupUE] at h
  | cons p rest ih =>
    intro acc u pe hnd h
    obtain ⟨k, v⟩ := p
    rcases (List.pairwise_cons.mp hnd) with ⟨hk', hrest⟩
    by_cases hk : k = u
    · subst hk
      simp [lookupUE] at h
      subst h
      have hnone : lookupUE rest k = none :=
        lookupUE_eq_none rest k (fun q hq => Ne.symm (hk' q hq))
      simp only [List.foldl_cons]
      rw [lookup_mergeFold_of_none rest _ k hnone, lookupUE_update, if_pos rfl]
    · simp only [lookupUE, if_neg hk] at h
      simp only [List.foldl_cons]
      exact ih _ _ _ hrest h

theorem mem_mergeFold {l : UrlErrors} {acc : UrlErrors} {p : String × PageError}
    (h : p ∈ l.foldl (fun a q => updateUE a q.1 q.2) acc) : p ∈ acc ∨ p ∈ l := by
  induction l generalizing acc with
  | nil => exact Or.inl h
  | cons q rest ih =>
    simp only [List.foldl_cons] at h
    rcases ih h with h1 | h1
    · rcases mem_updateUE h1 with h2 | h2
      · exact Or.inr (by simp [h2])
      · exact Or.inl h2
    · exact Or.inr (List.mem_cons_of_mem _ h1)

theorem mem_insertSet {set : List String} {a s : String}
    (h : s ∈ insertSet set a) : s ∈ set ∨ s = a := by
  unfold insertSet at h
  by_cases hc : set.contains a
  · simp only [if_pos hc] at h; exact Or.inl h
  · simp only [if_neg hc, List.mem_append, List.mem_singleton] at h
    exact h

theorem self_mem_insertSet (set : List String) (a : String) : a ∈ insertSet set a := by
  unfold insertSet
  by_cases hc : set.contains a = true
  · rw [if_pos hc]
    exact List.mem_of_elem_eq_true hc
  · rw [if_neg hc]
    exact List.mem_append_right _ (List.mem_singleton.mpr rfl)

theorem insertSet_ne_nil (set : List String) (a : String) : insertSet set a ≠ [] := by
  intro h
  exact absurd (h ▸ self_mem_insertSet set a) (List.not_mem_nil a)

end Linkcheck

namespace Linkcheck

/-! ## Claim C10 -/

/-- C10: for every link string, `removeFragment link` equals the first
component of `splitFragment link` — the queue's dedup key and the validator's
base-URL key are computed identically (both parse, clear the fragment and
re-serialize). -/
theorem removeFragment_eq_splitFragment_fst (link : String) :
    removeFragment link = (splitFragment link).1 := rfl

/-! ## Claim C9 -/

/-- C9: on an empty queue, `pophead` is a total no-op leaving the queue
unchanged and `head` returns the empty string, so the coordinator may call
them without checking emptiness first. -/
theorem queue_empty_head_pophead_safe (qu : Queue) (h : qu.empty = true) :
    qu.pophead = qu ∧ qu.head = "" := by
  obtain ⟨l, m⟩ := qu
  cases l with
  | nil => exact ⟨rfl, rfl⟩
  | cons x xs => simp [Queue.empty, List.isEmpty] at h

/-- Witness for C9 at the concrete empty queue. -/
theorem queue_empty_head_pophead_safe_witness :
    (Queue.mk [] ["http://a/"]).pophead = Queue.mk [] ["http://a/"] ∧
      (Queue.mk [] ["http://a/"]).head = "" :=
  queue_empty_head_pophead_safe (Queue.mk [] ["http://a/"]) rfl

/-! ## Claim C2 -/

/-- C2: the coordinator's event loop iterates exactly while
`(openFetchs > 0 ∨ ¬queue.empty) ∧ ¬cancelled`: while the guard holds, one
select outcome is consumed per iteration; when the guard fails the loop exits
at once with the current state (after which the worker-feed channel is
closed); and every exit state falsifies the guard, so in the absence of
cancellation the crawl terminates precisely when the queue is empty and the
in-flight counter is zero. -/
theorem crawl_loop_guard_characterization (c : Crawler) (e : CrawlEvent)
    (evs : List CrawlEvent) (s s' : CrawlState) :
    (loopGuard s = true → runCrawl c (e :: evs) s = runCrawl c evs (step c s e)) ∧
    (loopGuard s = false → runCrawl c evs s = some s) ∧
    (runCrawl c evs s = some s' →
      loopGuard s' = false ∧
        (s'.cancelled = false → s'.q.empty = true ∧ s'.openFetchs = 0)) := by
  refine ⟨?_, ?_, ?_⟩
  · intro h
    simp [runCrawl, h]
  · intro h
    cases evs <;> simp [runCrawl, h]
  · intro h
    have hguard : loopGuard s' = false := by
      induction evs generalizing s with
      | nil =>
        by_cases hg : loopGuard s
        · simp [runCrawl, hg] at h
        · simp [runCrawl, hg] at h
          subst h
          exact Bool.eq_false_iff.mpr hg
      | cons e' es ih =>
        by_cases hg : loopGuard s
        · simp only [runCrawl, if_pos hg] at h
          exact ih _ h
        · simp [runCrawl, hg] at h
          subst h
          exact Bool.eq_false_iff.mpr hg
    refine ⟨hguard, ?_⟩
    intro hc
    simp only [loopGuard, hc, Bool.not_false, Bool.and_true, Bool.or_eq_false_iff,
      decide_eq_false_iff_not, Bool.not_eq_false'] at hguard
    exact ⟨hguard.2, Nat.eq_zero_of_not_pos hguard.1⟩

/-- Witness for C2: a concrete two-event run of the crawler rooted at
`http://a/` exits with an empty queue and a zero in-flight counter. -/
theorem crawl_loop_guard_characterization_witness :
    finalStateA.q.empty = true ∧ finalStateA.openFetchs = 0 :=
  ((crawl_loop_guard_characterization crawlerA CrawlEvent.interrupt
        [CrawlEvent.dispatch, CrawlEvent.result resultRootA]
        (initState crawlerA) finalStateA).2.2 (by decide)).2 rfl

/-! ## Claim C4 -/

/-- C4: `doFetch` classifies failures exactly as the spec states: HTTP 404
and 410 come back as reported errors (`NotFound`, `Gone`), any other non-200
status is swallowed into an empty result with no error, DNS resolution
failures are reported, and every other network or transport failure is
swallowed into an empty result with no error. -/
theorem doFetch_error_classification (c : Crawler) (w : World) (u : String) :
    (w u = FetchOutcome.statusErr 404 →
      c.doFetch w u = ([], [], some ErrKind.notFound)) ∧
    (w u = FetchOutcome.statusErr 410 →
      c.doFetch w u = ([], [], some ErrKind.gone)) ∧
    (∀ code, w u = FetchOutcome.statusErr code → code ≠ 404 → code ≠ 410 →
      c.doFetch w u = ([], [], none)) ∧
    (w u = FetchOutcome.dnsErr → c.doFetch w u = ([], [], some ErrKind.dns)) ∧
    (w u = FetchOutcome.otherErr → c.doFetch w u = ([], [], none)) := by
  refine ⟨?_, ?_, ?_, ?_, ?_⟩
  · intro h
    simp [Crawler.doFetch, h]
  · intro h
    simp [Crawler.doFetch, h]
  · intro code h h4 h10
    simp [Crawler.doFetch, h, h4, h10]
  · intro h
    simp [Crawler.doFetch, h]
  · intro h
    simp [Crawler.doFetch, h]

/-- Witness for C4: against a network answering 404 everywhere, the fetch of a
concrete URL reports `NotFound`. -/
theorem doFetch_error_classification_witness :
    crawlerSite.doFetch worldAll404 "http://site/x" = ([], [], some ErrKind.notFound) :=
  (doFetch_error_classification crawlerSite worldAll404 "http://site/x").1 rfl

end Linkcheck

namespace Linkcheck

/-! ## Claim C1 -/

/-- C1 counterexample: requesting `http://site/r` follows a redirect and lands
on the final URL `http://site/final/`, yet the fetch result sent to the
coordinator carries the requested URL `http://site/r`, not the final one —
so the page store is keyed by the requested URL. -/
theorem fetch_url_not_final_counterexample :
    worldRedirect "http://site/r"
      = FetchOutcome.success "http://site/final/" docEmpty ∧
    (crawlerSite.fetch worldRedirect "http://site/r").url = "http://site/r" ∧
    "http://site/r" ≠ "http://site/final/" ∧
    (CrawledPages.add newCrawledPages (crawlerSite.fetch worldRedirect "http://site/r")).map
        Prod.fst = ["http://site/r"] := by
  refine ⟨rfl, rfl, by decide, by decide⟩

/-- C1 amended: the fetch result's `url` field — and hence the page-store
key — is always the URL as requested; `doFetch` rebinds the final
post-redirect URL only internally, where it gates link extraction by the
root-prefix check (so a fetch redirected off-site yields no links even though
the requested URL is under the root). -/
theorem fetch_url_is_requested (c : Crawler) (w : World) (u : String) :
    (c.fetch w u).url = u ∧
    (∀ v d, w u = FetchOutcome.success v d → c.shouldGetLinks v = false →
      (c.fetch w u).links = []) := by
  constructor
  · rfl
  · intro v d hw hv
    simp [Crawler.fetch, Crawler.doFetch, hw, hv]

/-- Witness for C1 (amended): a request under the root that gets redirected
off-site keeps its requested URL and yields no links. -/
theorem fetch_url_is_requested_witness :
    (crawlerSite.fetch worldElsewhere "http://site/r").url = "http://site/r" ∧
    (crawlerSite.fetch worldElsewhere "http://site/r").links = [] :=
  ⟨(fetch_url_is_requested crawlerSite worldElsewhere "http://site/r").1,
   (fetch_url_is_requested crawlerSite worldElsewhere "http://site/r").2
     "http://other/x" docEmpty rfl (by decide)⟩

/-! ## Claim C8 -/

/-- C8 counterexample: an anchor element with no `href` attribute at all does
produce an entry in the links list — the empty reference resolves to the page's
own URL, which is nonempty, so the extractor appends it. -/
theorem extractor_empty_href_counterexample :
    href anchorNoHref = "" ∧
    getIDsAndLinks (parseGoURL "http://fixture/basic-a.html") anchorNoHref true
      = ([], ["http://fixture/basic-a.html"]) := by
  refine ⟨rfl, by decide⟩

/-- C8 amended: for an anchor whose `href` attribute is absent or empty, the
extractor resolves the empty reference against the page URL and gets the page's
own URL back; whenever that serialization is nonempty (every real page URL),
the link list does receive an entry — the page's own URL — rather than no
entry. -/
theorem extractor_empty_href_self_link :
    (∀ (u : GoURL) (n : Node), isAnchor n = true → href n = "" →
      linkFromAHref u n = u.render) ∧
    (∀ u : GoURL, u.render ≠ "" →
      getIDsAndLinks u anchorNoHref true = ([], [u.render])) := by
  constructor
  · intro u n ha hh
    show (if !isAnchor n then "" else resolveRef u (href n)) = u.render
    rw [ha, hh]
    show resolveRef u "" = u.render
    rfl
  · intro u hr
    have hl : linkFromAHref u anchorNoHref = u.render := rfl
    have hp : preorder anchorNoHref = [anchorNoHref] := rfl
    have hids : getIDs anchorNoHref = [] := rfl
    simp [getIDsAndLinks, hp, hids, hl, hr]

/-- Witness for C8 (amended): at the concrete fixture page URL, the attribute-
free anchor resolves to the page's own URL and the extractor appends it. -/
theorem extractor_empty_href_self_link_witness :
    linkFromAHref (parseGoURL "http://fixture/basic-a.html") anchorNoHref
      = (parseGoURL "http://fixture/basic-a.html").render ∧
    getIDsAndLinks (parseGoURL "http://fixture/basic-a.html") anchorNoHref true
      = ([], [(parseGoURL "http://fixture/basic-a.html").render]) :=
  ⟨extractor_empty_href_self_link.1 (parseGoURL "http://fixture/basic-a.html")
      anchorNoHref rfl rfl,
   extractor_empty_href_self_link.2 (parseGoURL "http://fixture/basic-a.html")
      (by decide)⟩

end Linkcheck

namespace Linkcheck

/-! ## Claim C3 -/

theorem contains_iff_mem (m : List String) (s : String) :
    m.contains s = true ↔ s ∈ m :=
  ⟨fun h => List.mem_of_elem_eq_true h, fun h => List.elem_eq_true_of_mem h⟩

theorem pophead_m (qu : Queue) : qu.pophead.m = qu.m := by
  obtain ⟨l, m⟩ := qu
  cases l <;> rfl

/-- Over any trace of queue operations, the strings appended to the FIFO are
pairwise distinct and none of them is already in the membership set. -/
theorem appendedLog_nodup_disjoint :
    ∀ (ops : List QueueOp) (qu : Queue),
      (appendedLog qu ops).Nodup ∧ ∀ s ∈ appendedLog qu ops, s ∉ qu.m := by
  intro ops
  induction ops with
  | nil =>
    intro qu
    exact ⟨List.nodup_nil, by simp [appendedLog]⟩
  | cons op ops ih =>
    intro qu
    cases op with
    | pop =>
      have h := ih qu.pophead
      refine ⟨by simpa [appendedLog, appendedBy] using h.1, ?_⟩
      intro s hs
      have hs' : s ∈ appendedLog qu.pophead ops := by
        simpa [appendedLog, appendedBy] using hs
      have := h.2 s hs'
      rwa [pophead_m] at this
    | add l =>
      by_cases hc : removeFragment l ∈ qu.m
      · have hc' : qu.m.contains (removeFragment l) = true := (contains_iff_mem _ _).mpr hc
        have hq : qu.add l = qu := by simp [Queue.add, hc', hc]
        have h := ih qu
        refine ⟨?_, ?_⟩
        · simpa [appendedLog, appendedBy, Queue.applyOp, hc, hc', hq] using h.1
        · intro s hs
          exact h.2 s
            (by simpa [appendedLog, appendedBy, Queue.applyOp, hc, hc', hq] using hs)
      · have hc' : ¬ qu.m.contains (removeFragment l) = true := fun h =>
          hc ((contains_iff_mem _ _).mp h)
        have hq : qu.add l =
            { q := qu.q ++ [removeFragment l], m := removeFragment l :: qu.m } := by
          simp [Queue.add, hc', hc]
        have h := ih (qu.add l)
        have hm : (qu.add l).m = removeFragment l :: qu.m := by rw [hq]
        have hlog : appendedLog qu (QueueOp.add l :: ops)
            = removeFragment l :: appendedLog (qu.add l) ops := by
          simp [appendedLog, appendedBy, Queue.applyOp, hc, hc']
        refine ⟨?_, ?_⟩
        · rw [hlog]
          refine List.nodup_cons.mpr ⟨?_, h.1⟩
          intro hmem
          have := h.2 _ hmem
          rw [hm] at this
          exact this (List.mem_cons_self _ _)
        · intro s hs
          rw [hlog] at hs
          rcases List.mem_cons.mp hs with h1 | h1
          · subst h1
            exact hc
          · have := h.2 s h1
            rw [hm] at this
            intro hmem
            exact this (List.mem_cons_of_mem _ hmem)

/-- Every string an `add` appends has been fragment-stripped. -/
theorem appendedLog_stripped :
    ∀ (ops : List QueueOp) (qu : Queue) (s : String),
      s ∈ appendedLog qu ops → ∃ l, s = removeFragment l := by
  intro ops
  induction ops with
  | nil =>
    intro qu s hs
    simp [appendedLog] at hs
  | cons op ops ih =>
    intro qu s hs
    cases op with
    | pop => exact ih _ s (by simpa [appendedLog, appendedBy] using hs)
    | add l =>
      by_cases hc : removeFragment l ∈ qu.m
      · exact ih _ s (by simpa [appendedLog, appendedBy, hc] using hs)
      · have hs' : s = removeFragment l ∨ s ∈ appendedLog (qu.add l) ops := by
          have := (by simpa [appendedLog, appendedBy, hc] using hs :
            (removeFragment l ∉ qu.m ∧ s = removeFragment l) ∨
              s ∈ appendedLog (qu.applyOp (QueueOp.add l)) ops)
          rcases this with h1 | h1
          · exact Or.inl h1.2
          · exact Or.inr h1
        rcases hs' with h1 | h1
        · exact ⟨l, h1⟩
        · exact ih _ s h1

/-- C3 counterexample: `newQueue` seeds the FIFO (and the membership set) with
the root URL verbatim — the fragment of the root is not stripped before it is
recorded, contradicting the claim for the seed URL. -/
theorem newQueue_root_fragment_counterexample :
    (newQueue "http://site/page#frag").q = ["http://site/page#frag"] ∧
    removeFragment "http://site/page#frag" = "http://site/page" ∧
    "http://site/page#frag" ≠ "http://site/page" := by
  refine ⟨rfl, by decide, by decide⟩

/-- C3 amended: every URL offered to the queue through `add` has its fragment
stripped before the dedup check (each appended string is the stripped form of
the offered link), and no string is appended to the FIFO twice over the whole
lifetime of the crawl, the verbatim root seed included; the root URL itself,
however, is seeded at construction without fragment stripping. -/
theorem queue_append_unique_and_stripped (u : String) (ops : List QueueOp) :
    (∀ s ∈ appendedLog (newQueue u) ops, ∃ l, s = removeFragment l) ∧
    (u :: appendedLog (newQueue u) ops).Nodup := by
  constructor
  · intro s hs
    exact appendedLog_stripped ops (newQueue u) s hs
  · have h := appendedLog_nodup_disjoint ops (newQueue u)
    refine List.nodup_cons.mpr ⟨?_, h.1⟩
    intro hmem
    exact h.2 u hmem (List.mem_cons_self _ _)

/-- Witness for C3 (amended): a concrete trace — add a fragmented link, pop,
re-add its stripped form — appends each string at most once. -/
theorem queue_append_unique_and_stripped_witness :
    ("http://a/" :: appendedLog (newQueue "http://a/")
        [QueueOp.add "http://a/b#f", QueueOp.pop, QueueOp.add "http://a/b"]).Nodup :=
  (queue_append_unique_and_stripped "http://a/"
    [QueueOp.add "http://a/b#f", QueueOp.pop, QueueOp.add "http://a/b"]).2

end Linkcheck

namespace Linkcheck

/-! ## Claim C7 -/

theorem refsOK_updateUE {base : String} {ue : UrlErrors} {k : String} {v : PageError}
    (h : refsOK base ue) (hv : ∀ r ∈ v.refs, strStartsWith r base = true) :
    refsOK base (updateUE ue k v) := by
  intro p hp
  rcases mem_updateUE hp with h1 | h1
  · subst h1; exact hv
  · exact h p h1

/-- The back-reference update of `processLink` only appends the current page,
so when that page lies under the root both components keep all their refs
under the root. -/
theorem processLink_refsOK (cp : CrawledPages) (base page link : String)
    (st : UrlErrors × UrlErrors) (hpage : strStartsWith page base = true)
    (h1 : refsOK base st.1) (h2 : refsOK base st.2) :
    refsOK base (processLink cp page st link).1 ∧
      refsOK base (processLink cp page st link).2 := by
  have hreq : refsOK base
      (match lookupUE st.1 (splitFragment link).1 with
        | some pe =>
          updateUE st.1 (splitFragment link).1 { pe with refs := pe.refs ++ [page] }
        | none => st.1) := by
    cases hcase : lookupUE st.1 (splitFragment link).1 with
    | none => exact h1
    | some pe =>
      refine refsOK_updateUE h1 ?_
      intro r hr
      rcases List.mem_append.mp hr with hh | hh
      · exact h1 _ (mem_of_lookupUE hcase) r hh
      · rw [List.mem_singleton.mp hh]; exact hpage
  simp only [processLink]
  split
  · exact ⟨hreq, h2⟩
  · split
    · exact ⟨hreq, h2⟩
    · refine ⟨hreq, ?_⟩
      cases hfrag : lookupUE st.2 (splitFragment link).1 with
      | none =>
        simp only [hfrag]
        refine refsOK_updateUE h2 ?_
        intro r hr
        rcases List.mem_append.mp hr with hh | hh
        · simp at hh
        · rw [List.mem_singleton.mp hh]; exact hpage
      | some pe =>
        simp only [hfrag]
        refine refsOK_updateUE h2 ?_
        intro r hr
        rcases List.mem_append.mp hr with hh | hh
        · exact h2 _ (mem_of_lookupUE hfrag) r hh
        · rw [List.mem_singleton.mp hh]; exact hpage

/-- Phase B keeps all back-references under the root: pages are only processed
under the `strings.HasPrefix(page, base)` guard. -/
theorem phaseB_refsOK (cp : CrawledPages) (base : String) (reqE : UrlErrors)
    (h : refsOK base reqE) :
    refsOK base (phaseB cp base reqE).1 ∧ refsOK base (phaseB cp base reqE).2 := by
  unfold phaseB
  refine foldl_preserve (P := fun st => refsOK base st.1 ∧ refsOK base st.2)
    (Q := fun _ => True) ?_ cp (reqE, []) (fun _ _ => trivial) ⟨h, by intro p hp; simp at hp⟩
  intro st p _ hst
  by_cases hb : strStartsWith p.1 base = true
  · simp only [if_pos hb]
    refine foldl_preserve (P := fun st => refsOK base st.1 ∧ refsOK base st.2)
      (Q := fun _ => True) ?_ p.2.links st (fun _ _ => trivial) hst
    intro st' link _ hst'
    exact processLink_refsOK cp base p.1 link st' hb hst'.1 hst'.2
  · simp only [if_neg hb]
    exact hst

/-- Phase A entries carry no back-references at all. -/
theorem phaseA_refsOK (cp : CrawledPages) (base : String) :
    refsOK base (phaseA cp) := by
  unfold phaseA
  refine foldl_preserve (P := refsOK base) (Q := fun _ => True) ?_ cp []
    (fun _ _ => trivial) (by intro p hp; simp at hp)
  intro acc p _ hacc
  cases hp : p.2.err with
  | none => simpa [hp] using hacc
  | some e =>
    simp only [hp]
    refine refsOK_updateUE hacc ?_
    intro r hr
    simp at hr

/-- C7: every back-reference in every entry of the final error report lies
under the root prefix — refs are appended only while iterating pages whose URL
starts with the base. -/
theorem toURLErrors_refs_under_base (cp : CrawledPages) (base u : String)
    (pe : PageError) (h : lookupUE (cp.toURLErrors base) u = some pe) :
    ∀ r ∈ pe.refs, strStartsWith r base = true := by
  have hA := phaseA_refsOK cp base
  have hB := phaseB_refsOK cp base (phaseA cp) hA
  have hmem := mem_of_lookupUE h
  unfold CrawledPages.toURLErrors at hmem
  rcases mem_mergeFold hmem with h1 | h1
  · exact hB.1 _ h1
  · exact hB.2 _ h1

/-- Witness for C7 at the concrete store `cpBoth`: the back-reference recorded
on the report entry for `http://x/bad` starts with the root prefix. -/
theorem toURLErrors_refs_under_base_witness :
    strStartsWith "http://x/" "http://x/" = true :=
  toURLErrors_refs_under_base cpBoth "http://x/" "http://x/bad"
    (PageError.mk ErrKind.missingFragment ["http://x/"] ["f"]) (by decide)
    "http://x/" (List.mem_singleton.mpr rfl)

end Linkcheck

namespace Linkcheck

/-! ## Claim C6 -/

theorem processLink_nodup (cp : CrawledPages) (page link : String)
    (st : UrlErrors × UrlErrors) (h : UENodupKeys st.2) :
    UENodupKeys (processLink cp page st link).2 := by
  simp only [processLink]
  split
  · exact h
  · split
    · exact h
    · cases hfrag : lookupUE st.2 (splitFragment link).1 with
      | none =>
        simp only [hfrag]
        exact nodupKeys_updateUE _ _ _ h
      | some pe =>
        simp only [hfrag]
        exact nodupKeys_updateUE _ _ _ h

theorem phaseB_nodup (cp : CrawledPages) (base : String) (reqE : UrlErrors) :
    UENodupKeys (phaseB cp base reqE).2 := by
  unfold phaseB
  refine foldl_preserve (P := fun st => UENodupKeys st.2) (Q := fun _ => True) ?_ cp
    (reqE, []) (fun _ _ => trivial) (show UENodupKeys [] from List.Pairwise.nil)
  intro st p _ hst
  by_cases hb : strStartsWith p.1 base = true
  · simp only [if_pos hb]
    refine foldl_preserve (P := fun st => UENodupKeys st.2) (Q := fun _ => True) ?_
      p.2.links st (fun _ _ => trivial) hst
    intro st' link _ hst'
    exact processLink_nodup cp p.1 link st' hst'
  · simp only [if_neg hb]
    exact hst

/-- C6: whenever a URL has both a phase-A fetch-error entry and a phase-B
missing-fragment entry, the merged report binds it to the phase-B entry — the
merge loop writes every fragment error over any same-key phase-A entry. -/
theorem toURLErrors_fragment_error_overrides (cp : CrawledPages) (base u : String)
    (peA peB : PageError)
    (_hA : lookupUE (phaseA cp) u = some peA)
    (hB : lookupUE ((phaseB cp base (phaseA cp)).2) u = some peB) :
    lookupUE (cp.toURLErrors base) u = some peB := by
  unfold CrawledPages.toURLErrors
  exact lookup_mergeFold_of_some _ _ _ _ (phaseB_nodup cp base (phaseA cp)) hB

/-- Witness for C6 at `cpBoth`: `http://x/bad` both failed its fetch (404) and
is referenced with a missing fragment; the final report shows the
missing-fragment entry. -/
theorem toURLErrors_fragment_error_overrides_witness :
    lookupUE (CrawledPages.toURLErrors cpBoth "http://x/") "http://x/bad"
      = some (PageError.mk ErrKind.missingFragment ["http://x/"] ["f"]) :=
  toURLErrors_fragment_error_overrides cpBoth "http://x/" "http://x/bad"
    (PageError.mk ErrKind.notFound [] [])
    (PageError.mk ErrKind.missingFragment ["http://x/"] ["f"])
    (by decide) (by decide)

end Linkcheck

namespace Linkcheck

/-! ## Claim C5 -/

theorem phaseA_noMF (cp : CrawledPages)
    (hcp : ∀ p ∈ cp, p.2.err ≠ some ErrKind.missingFragment) :
    noMF (phaseA cp) := by
  unfold phaseA
  refine foldl_preserve (P := noMF)
    (Q := fun p => p.2.err ≠ some ErrKind.missingFragment) ?_ cp [] hcp
    (by intro p hp; simp at hp)
  intro acc p hQ hacc
  cases hp : p.2.err with
  | none => simpa [hp] using hacc
  | some e =>
    simp only [hp]
    intro q hq
    rcases mem_updateUE hq with hh | hh
    · subst hh
      intro he
      simp only at he
      exact hQ (by rw [hp, he])
    · exact hacc q hh

theorem processLink_noMF_fragOK (cp : CrawledPages) (page link : String)
    (st : UrlErrors × UrlErrors) (h1 : noMF st.1) (h2 : allFragOK cp st.2) :
    noMF (processLink cp page st link).1 ∧
      allFragOK cp (processLink cp page st link).2 := by
  have hreq : noMF
      (match lookupUE st.1 (splitFragment link).1 with
        | some pe =>
          updateUE st.1 (splitFragment link).1 { pe with refs := pe.refs ++ [page] }
        | none => st.1) := by
    cases hcase : lookupUE st.1 (splitFragment link).1 with
    | none => exact h1
    | some pe =>
      intro p hp
      rcases mem_updateUE hp with hh | hh
      · subst hh
        have hp0 := h1 _ (mem_of_lookupUE hcase)
        exact hp0
      · exact h1 p hh
  simp only [processLink]
  split
  · exact ⟨hreq, h2⟩
  · split
    · exact ⟨hreq, h2⟩
    · rename_i hempty hpass
      refine ⟨hreq, ?_⟩
      cases hfrag : lookupUE st.2 (splitFragment link).1 with
      | none =>
        simp only [hfrag]
        intro p hp
        rcases mem_updateUE hp with hh | hh
        · subst hh
          refine ⟨rfl, ?_, ?_⟩
          · show insertSet [] (splitFragment link).2 ≠ []
            exact insertSet_ne_nil _ _
          · intro f hf
            have hf' : f ∈ insertSet [] (splitFragment link).2 := hf
            rcases mem_insertSet hf' with hh2 | hh2
            · simp at hh2
            · subst hh2
              exact Bool.eq_false_iff.mpr hpass
        · exact h2 p hh
      | some pe =>
        simp only [hfrag]
        intro p hp
        rcases mem_updateUE hp with hh | hh
        · subst hh
          have hpe := h2 _ (mem_of_lookupUE hfrag)
          refine ⟨hpe.1, ?_, ?_⟩
          · show insertSet pe.missingFragments (splitFragment link).2 ≠ []
            exact insertSet_ne_nil _ _
          · intro f hf
            have hf' : f ∈ insertSet pe.missingFragments (splitFragment link).2 := hf
            rcases mem_insertSet hf' with hh2 | hh2
            · exact hpe.2.2 f hh2
            · subst hh2
              exact Bool.eq_false_iff.mpr hpass
        · exact h2 p hh

theorem phaseB_noMF_fragOK (cp : CrawledPages) (base : String) (reqE : UrlErrors)
    (h : noMF reqE) :
    noMF (phaseB cp base reqE).1 ∧ allFragOK cp (phaseB cp base reqE).2 := by
  unfold phaseB
  refine foldl_preserve (P := fun st => noMF st.1 ∧ allFragOK cp st.2)
    (Q := fun _ => True) ?_ cp (reqE, []) (fun _ _ => trivial)
    ⟨h, by intro p hp; simp at hp⟩
  intro st p _ hst
  by_cases hb : strStartsWith p.1 base = true
  · simp only [if_pos hb]
    refine foldl_preserve (P := fun st => noMF st.1 ∧ allFragOK cp st.2)
      (Q := fun _ => True) ?_ p.2.links st (fun _ _ => trivial) hst
    intro st' link _ hst'
    exact processLink_noMF_fragOK cp p.1 link st' hst'.1 hst'.2
  · simp only [if_neg hb]
    exact hst

/-- C5: the per-link fragment handling of phase B, and its global consequence.
(1) A link whose fragment is empty or begins with `!` leaves the fragment-error
map untouched.  (2) A link whose fragment is among the stored ids of its target
page leaves it untouched as well.  (3) Otherwise, starting from a well-formed
fragment-error map, a `MissingFragment` entry is recorded on the
fragment-stripped base with the referring page appended to its refs and the
fragment added to its missing set.  (4) Consequently — when the store holds
only genuine fetch errors — every final report entry of kind `MissingFragment`
has a nonempty missing-fragment set, every fragment of which fails the
identifier check on the target page. -/
theorem toURLErrors_missing_fragment_sound :
    (∀ (cp : CrawledPages) (page : String) (st : UrlErrors × UrlErrors) (link : String),
      ((splitFragment link).2 = "" ∨ strStartsWith (splitFragment link).2 "!" = true) →
      (processLink cp page st link).2 = st.2) ∧
    (∀ (cp : CrawledPages) (page : String) (st : UrlErrors × UrlErrors) (link : String),
      ¬((splitFragment link).2 = "" ∨ strStartsWith (splitFragment link).2 "!" = true) →
      idCheckPasses cp (splitFragment link).1 (splitFragment link).2 = true →
      (processLink cp page st link).2 = st.2) ∧
    (∀ (cp : CrawledPages) (page : String) (st : UrlErrors × UrlErrors) (link : String),
      allFragOK cp st.2 →
      ¬((splitFragment link).2 = "" ∨ strStartsWith (splitFragment link).2 "!" = true) →
      idCheckPasses cp (splitFragment link).1 (splitFragment link).2 = false →
      ∃ pe, lookupUE (processLink cp page st link).2 (splitFragment link).1 = some pe ∧
        pe.err = ErrKind.missingFragment ∧ page ∈ pe.refs ∧
        (splitFragment link).2 ∈ pe.missingFragments) ∧
    (∀ (cp : CrawledPages) (base u : String) (pe : PageError),
      (∀ p ∈ cp, p.2.err ≠ some ErrKind.missingFragment) →
      lookupUE (cp.toURLErrors base) u = some pe →
      pe.err = ErrKind.missingFragment →
      pe.missingFragments ≠ [] ∧
        ∀ f ∈ pe.missingFragments, idCheckPasses cp u f = false) := by
  refine ⟨?_, ?_, ?_, ?_⟩
  · intro cp page st link h
    simp only [processLink]
    rw [if_pos h]
  · intro cp page st link h1 h2
    simp only [processLink]
    rw [if_neg h1, if_pos h2]
  · intro cp page st link hOK h1 h2
    have h2' : ¬ idCheckPasses cp (splitFragment link).1 (splitFragment link).2 = true := by
      simp [h2]
    simp only [processLink]
    rw [if_neg h1, if_neg h2']
    cases hfrag : lookupUE st.2 (splitFragment link).1 with
    | none =>
      simp only [hfrag]
      refine ⟨{ err := ErrKind.missingFragment, refs := [] ++ [page],
                missingFragments := insertSet [] (splitFragment link).2 },
        ?_, rfl, ?_, ?_⟩
      · rw [lookupUE_update, if_pos rfl]
      · simp
      · show (splitFragment link).2 ∈ insertSet [] (splitFragment link).2
        exact self_mem_insertSet _ _
    | some pe0 =>
      simp only [hfrag]
      refine ⟨{ err := pe0.err, refs := pe0.refs ++ [page],
                missingFragments := insertSet pe0.missingFragments (splitFragment link).2 },
        ?_, ?_, ?_, ?_⟩
      · rw [lookupUE_update, if_pos rfl]
      · have hpe0 := hOK _ (mem_of_lookupUE hfrag)
        exact hpe0.1
      · simp
      · show (splitFragment link).2 ∈ insertSet pe0.missingFragments (splitFragment link).2
        exact self_mem_insertSet _ _
  · intro cp base u pe hcp hlook hmf
    have hA := phaseA_noMF cp hcp
    have hB := phaseB_noMF_fragOK cp base (phaseA cp) hA
    have hmem := mem_of_lookupUE hlook
    unfold CrawledPages.toURLErrors at hmem
    rcases mem_mergeFold hmem with h1 | h1
    · exact absurd hmf (hB.1 _ h1)
    · have hfr := hB.2 _ h1
      exact ⟨hfr.2.1, hfr.2.2⟩

/-- Witness for C5 at `cpBoth`: the report's missing-fragment entry for
`http://x/bad` has the nonempty missing set `{f}` and `f` fails the identifier
check there. -/
theorem toURLErrors_missing_fragment_sound_witness :
    (PageError.mk ErrKind.missingFragment ["http://x/"] ["f"]).missingFragments ≠ [] ∧
    ∀ f ∈ (PageError.mk ErrKind.missingFragment ["http://x/"] ["f"]).missingFragments,
      idCheckPasses cpBoth "http://x/bad" f = false :=
  toURLErrors_missing_fragment_sound.2.2.2 cpBoth "http://x/" "http://x/bad"
    (PageError.mk ErrKind.missingFragment ["http://x/"] ["f"])
    (by decide) (by decide) rfl

end Linkcheck
